import Mathlib

/-!
Verification of the Battle Line game engine (battle_line_game.py):
cards, the 3-card hand evaluator, lanes (flags), the match state with
its move application, the game-over scan, and the action encoding.

Python-specific behaviours are modelled explicitly: tuples of numbers are
compared lexicographically (`pyListLt`), list indexing accepts negative
indices counting from the end and raises on indices before the start
(`pyIdx`, so fallible operations return `Option`), and `list.insert`
clamps its position into range (`pyInsertPos`).
-/

/-- The three card colors, `COLORS = ['red', 'blue', 'green']`. -/
inductive Color : Type
  | red
  | blue
  | green
deriving DecidableEq, Repr

/-- A card: a color and a value (1..10 in a real deck). -/
structure Card where
  color : Color
  value : Nat
deriving DecidableEq, Repr

/-- Python comparison `a < b` on tuples/lists of numbers: lexicographic,
a strict prefix is smaller. -/
def pyListLt : List Nat → List Nat → Bool
  | [], [] => false
  | [], _ :: _ => true
  | _ :: _, [] => false
  | x :: xs, y :: ys =>
    if x < y then true
    else if y < x then false
    else pyListLt xs ys

/-- `evaluate_hand(cards)`: the strength key of a formation, returned as the
list of components of the Python tuple.  Fewer than 3 cards yields the
sentinel `(0, 0)`; otherwise the values are sorted ascending and the
category chain is tried in order: trio, straight flush, flush, straight,
pair, high card. -/
def evaluate_hand (cards : List Card) : List Nat :=
  if cards.length < 3 then
    [0, 0]
  else
    let values := List.insertionSort (· ≤ ·) (cards.map Card.value)
    let colors := cards.map Card.color
    let v0 := values.getD 0 0
    let v1 := values.getD 1 0
    let v2 := values.getD 2 0
    if v0 = v1 ∧ v1 = v2 then
      [6, v0]
    else
      let is_straight := v0 + 1 = v1 ∧ v1 + 1 = v2
      let is_flush := colors.getD 0 Color.red = colors.getD 1 Color.red ∧
        colors.getD 1 Color.red = colors.getD 2 Color.red
      if is_straight ∧ is_flush then
        [5, v2]
      else if is_flush then
        let desc := (List.insertionSort (· ≤ ·) values).reverse
        [4, desc.getD 0 0, desc.getD 1 0, desc.getD 2 0]
      else if is_straight then
        [3, v2]
      else if v0 = v1 ∨ v1 = v2 ∨ v0 = v2 then
        if v0 = v1 then [2, v0, v2]
        else if v1 = v2 then [2, v1, v0]
        else [2, v0, v1]
      else
        let desc := (List.insertionSort (· ≤ ·) values).reverse
        [1, desc.getD 0 0, desc.getD 1 0, desc.getD 2 0]

/-- Modelled from the spec, section 4.1: the reference strength key of a
3-card formation.  Categories, strongest first: trio (all ranks equal,
tiebreaker the rank), straight flush (consecutive ranks, same color,
tiebreaker highest rank), flush (same color, not consecutive, tiebreaker
ranks sorted descending), straight (consecutive, not all same color,
tiebreaker highest rank), pair (exactly two ranks equal, tiebreaker
(pair rank, kicker rank)), high card (ranks sorted descending). -/
def specKey (cards : List Card) : List Nat :=
  match cards with
  | [a, b, c] =>
    let asc := List.insertionSort (· ≤ ·) [a.value, b.value, c.value]
    let r0 := asc.getD 0 0
    let r1 := asc.getD 1 0
    let r2 := asc.getD 2 0
    let consecutive := r0 + 1 = r1 ∧ r1 + 1 = r2
    let sameColor := a.color = b.color ∧ b.color = c.color ∧ a.color = c.color
    if r0 = r1 ∧ r1 = r2 then
      [6, r0]
    else if consecutive ∧ sameColor then
      [5, r2]
    else if sameColor ∧ ¬ consecutive then
      [4, r2, r1, r0]
    else if consecutive ∧ ¬ sameColor then
      [3, r2]
    else if (r0 = r1 ∧ r1 ≠ r2) ∨ (r1 = r2 ∧ r0 ≠ r1) then
      if r0 = r1 then [2, r0, r2] else [2, r1, r0]
    else
      [1, r2, r1, r0]
  | _ => []

/-- The two sides, the keys of the hands and slot dictionaries. -/
inductive Side : Type
  | player
  | opponent
deriving DecidableEq, Repr

/-- The result values appearing as a lane winner or a match outcome:
the strings "player", "opponent" and "draw" of the source. -/
inductive Res : Type
  | player
  | opponent
  | draw
deriving DecidableEq, Repr

/-- The opposing side, `"opponent" if player == "player" else "player"`. -/
def Side.other : Side → Side
  | .player => .opponent
  | .opponent => .player

/-- A lane (`Flag`): the two per-side slot sequences and the winner field
(`None` until the lane locks). -/
structure GameFlag where
  playerSlots : List Card
  opponentSlots : List Card
  winner : Option Res
deriving DecidableEq, Repr

/-- `flag.slots[player]`. -/
def GameFlag.slots (f : GameFlag) : Side → List Card
  | .player => f.playerSlots
  | .opponent => f.opponentSlots

/-- Replace one side's slot sequence. -/
def GameFlag.setSlots (f : GameFlag) : Side → List Card → GameFlag
  | .player, l => { f with playerSlots := l }
  | .opponent, l => { f with opponentSlots := l }

/-- `GameFlag.is_complete`: both sides have placed 3 cards. -/
def GameFlag.is_complete (f : GameFlag) : Bool :=
  f.playerSlots.length == 3 && f.opponentSlots.length == 3

/-- `GameFlag.get_winner`: once complete, compare the two evaluated hands
(Python tuple comparison); otherwise `None`. -/
def GameFlag.get_winner (f : GameFlag) : Option Res :=
  if f.is_complete then
    if pyListLt (evaluate_hand f.opponentSlots) (evaluate_hand f.playerSlots) then
      some Res.player
    else if pyListLt (evaluate_hand f.playerSlots) (evaluate_hand f.opponentSlots) then
      some Res.opponent
    else
      some Res.draw
  else
    none

/-- The lock-in after an append: if the lane just became complete, freeze
its winner. -/
def completeCheck (f : GameFlag) : GameFlag :=
  if f.is_complete then { f with winner := f.get_winner } else f

/-- `GameFlag.add_card`: refuse if the lane is decided or that side is full,
otherwise append and, if the lane just became complete, freeze the
winner.  Returns the applied bit together with the updated lane. -/
def GameFlag.add_card (f : GameFlag) (player : Side) (card : Card) : Bool × GameFlag :=
  if f.winner ≠ none then
    (false, f)
  else if (f.slots player).length < 3 then
    (true, completeCheck (f.setSlots player (f.slots player ++ [card])))
  else
    (false, f)

/-- Python list indexing: a negative index counts from the end; an index
out of range on either side is an `IndexError`, modelled as `none`. -/
def pyIdx (n : Nat) (i : Int) : Option Nat :=
  if i < 0 then
    if 0 ≤ i + n then some (i + n).toNat else none
  else
    if i < n then some i.toNat else none

/-- Python `list.pop(i)`: the removed element and the remaining list, or
`none` on an out-of-range index. -/
def pyPop {α : Type} (l : List α) (i : Int) : Option (α × List α) :=
  match pyIdx l.length i with
  | some k => (l[k]?).map (fun a => (a, l.eraseIdx k))
  | none => none

/-- Python `list.insert(i, a)` clamps the position into range (a negative
position counts from the end, floored at 0; a large one appends). -/
def pyInsertPos (n : Nat) (i : Int) : Nat :=
  if i < 0 then (i + n).toNat else min i.toNat n

/-- Python `list.insert(i, a)`. -/
def pyInsert {α : Type} (l : List α) (i : Int) (a : α) : List α :=
  l.insertIdx (pyInsertPos l.length i) a

/-- The match state: deck, the two hands, the 9 lanes, whose turn. -/
structure GameState where
  deck : List Card
  playerHand : List Card
  opponentHand : List Card
  flags : List GameFlag
  current_turn : Side
deriving DecidableEq, Repr

/-- `state.hands[player]`. -/
def GameState.hands (s : GameState) : Side → List Card
  | .player => s.playerHand
  | .opponent => s.opponentHand

/-- Replace one side's hand. -/
def GameState.setHand (s : GameState) : Side → List Card → GameState
  | .player, l => { s with playerHand := l }
  | .opponent, l => { s with opponentHand := l }

/-- The draw after a successful placement: if the deck is non-empty
(Python truthiness of the list) and the mover's hand holds fewer than 7
cards, pop the last card of the deck into that hand. -/
def drawStep (s : GameState) (player : Side) : GameState :=
  match s.deck.getLast? with
  | some c =>
    if (s.hands player).length < 7 then
      { s.setHand player (s.hands player ++ [c]) with deck := s.deck.dropLast }
    else s
  | none => s

/-- `GameState.play_move(player, card_index, flag_index)`: guard the two
indices against the upper bounds, refuse a decided or full lane, pop the
card from the hand, offer it to the lane; on success draw (deck and hand
capacity permitting) and flip the turn, otherwise restore the card.
Python indexing faults (an index before the start of a list) are `none`. -/
def GameState.play_move (s : GameState) (player : Side) (card_index flag_index : Int) :
    Option (Bool × GameState) :=
  if ((s.hands player).length : Int) ≤ card_index ∨ (s.flags.length : Int) ≤ flag_index then
    some (false, s)
  else
    match pyIdx s.flags.length flag_index with
    | none => none
    | some fk =>
      match s.flags[fk]? with
      | none => none
      | some flag =>
        if flag.winner ≠ none ∨ 3 ≤ (flag.slots player).length then
          some (false, s)
        else
          match pyPop (s.hands player) card_index with
          | none => none
          | some (card, hand1) =>
            match flag.add_card player card with
            | (ok, flag2) =>
              if ok then
                some (true,
                  { drawStep { s.setHand player hand1 with flags := s.flags.set fk flag2 } player
                      with current_turn := player.other })
              else
                some (false, s.setHand player (pyInsert hand1 card_index card))

/-- `GameState.available_actions(player)`: every (card index, flag index)
pair with the flag neither decided nor full on that side. -/
def GameState.available_actions (s : GameState) (player : Side) : List (Nat × Nat) :=
  (List.range (s.hands player).length).flatMap (fun i =>
    (List.range s.flags.length).filterMap (fun j =>
      match s.flags[j]? with
      | some flag =>
        if flag.winner = none ∧ (flag.slots player).length < 3 then some (i, j) else none
      | none => none))

/-- The sliding-window scan of `check_game_over`: the first width-3 window
of lane results held entirely by one side, the player checked before the
opponent inside each window. -/
def checkWindows : List (Option Res) → Option Res
  | r0 :: r1 :: r2 :: rest =>
    if r0 = some Res.player ∧ r1 = some Res.player ∧ r2 = some Res.player then
      some Res.player
    else if r0 = some Res.opponent ∧ r1 = some Res.opponent ∧ r2 = some Res.opponent then
      some Res.opponent
    else
      checkWindows (r1 :: r2 :: rest)
  | _ => none

/-- `GameState.check_game_over`: re-evaluate every lane, award the match
to a side holding at least 5 lanes (player checked first), otherwise to
the first side holding a 3-in-a-row window, otherwise report no winner. -/
def GameState.check_game_over (s : GameState) : Option Res :=
  let results := s.flags.map GameFlag.get_winner
  let player_wins := results.countP (fun r => r = some Res.player)
  let opponent_wins := results.countP (fun r => r = some Res.opponent)
  if 5 ≤ player_wins then some Res.player
  else if 5 ≤ opponent_wins then some Res.opponent
  else checkWindows results

/-- `BattleLineGame.get_valid_actions`: encode each available action of
the player as `card_index * 9 + flag_index`. -/
def get_valid_actions (s : GameState) : List Nat :=
  (s.available_actions Side.player).map (fun a => a.1 * 9 + a.2)

/-- `BattleLineGame.decode_action`: back to (card index, flag index). -/
def decode_action (action : Nat) : Nat × Nat :=
  (action / 9, action % 9)

/-- The 30-card deck `[Card(color, value) for color in COLORS for value
in range(1, 11)]`. -/
def allCards : List Card :=
  [Color.red, Color.blue, Color.green].flatMap (fun c =>
    (List.range 10).map (fun v => ⟨c, v + 1⟩))

/-- One `deck.pop()` into a hand during the initial deal. -/
def dealOne (deck hand : List Card) : Option (List Card × List Card) :=
  match deck.getLast? with
  | some c => some (deck.dropLast, hand ++ [c])
  | none => none

/-- The dealing loop of `GameState.__init__`: each round pops one card
for the player and one for the opponent. -/
def dealLoop : Nat → List Card × List Card × List Card →
    Option (List Card × List Card × List Card)
  | 0, st => some st
  | n + 1, (deck, ph, oh) =>
    match dealOne deck ph with
    | none => none
    | some (d1, ph1) =>
      match dealOne d1 oh with
      | none => none
      | some (d2, oh1) => dealLoop n (d2, ph1, oh1)

/-- `GameState.__init__` for a given shuffled deck: deal 7 cards to each
side, create 9 empty lanes, the player starts. -/
def GameState.init (deck0 : List Card) : Option GameState :=
  (dealLoop 7 (deck0, [], [])).map (fun t =>
    { deck := t.1
      playerHand := t.2.1
      opponentHand := t.2.2
      flags := List.replicate 9 ⟨[], [], none⟩
      current_turn := Side.player })

/-- The states reachable from a fresh match on a given shuffled deck by
any sequence of (applied or rejected) moves. -/
inductive Reachable (deck0 : List Card) : GameState → Prop
  | start : ∀ s, GameState.init deck0 = some s → Reachable deck0 s
  | step : ∀ s player ci fi b s', Reachable deck0 s →
      GameState.play_move s player ci fi = some (b, s') → Reachable deck0 s'

/-- Every card in a lane, both sides together. -/
def flagCards (f : GameFlag) : Multiset Card :=
  (f.playerSlots : Multiset Card) + (f.opponentSlots : Multiset Card)

/-- Every card in the state: deck, both hands, all lane slots. -/
def cardsOf (s : GameState) : Multiset Card :=
  (s.deck : Multiset Card) + (s.playerHand : Multiset Card) +
    (s.opponentHand : Multiset Card) + (s.flags.map flagCards).sum

/-- An empty lane. -/
def emptyFlag : GameFlag := ⟨[], [], none⟩

/-- A small fixed state used to instantiate the turn and draw theorem. -/
def c7State : GameState :=
  { deck := [⟨Color.green, 1⟩]
    playerHand := [⟨Color.red, 1⟩]
    opponentHand := []
    flags := List.replicate 9 emptyFlag
    current_turn := Side.player }

/-- The state after playing the only card of `c7State` onto lane 0. -/
def c7Succ : GameState :=
  { deck := []
    playerHand := [⟨Color.green, 1⟩]
    opponentHand := []
    flags := ⟨[⟨Color.red, 1⟩], [], none⟩ :: List.replicate 8 emptyFlag
    current_turn := Side.opponent }

/-- A lane already decided for the player, used to instantiate the lock
monotonicity theorem. -/
def lockedFlag : GameFlag :=
  ⟨[⟨Color.red, 2⟩, ⟨Color.blue, 2⟩, ⟨Color.green, 2⟩],
   [⟨Color.red, 1⟩, ⟨Color.blue, 3⟩, ⟨Color.green, 5⟩], some Res.player⟩

/-- A state whose lane 0 is locked, used to instantiate the lock
monotonicity theorem. -/
def c5State : GameState :=
  { deck := []
    playerHand := [⟨Color.red, 9⟩]
    opponentHand := []
    flags := lockedFlag :: List.replicate 8 emptyFlag
    current_turn := Side.player }

/-- The state after the player of `c5State` plays onto lane 1. -/
def c5Succ : GameState :=
  { deck := []
    playerHand := []
    opponentHand := []
    flags := lockedFlag :: ⟨[⟨Color.red, 9⟩], [], none⟩ :: List.replicate 7 emptyFlag
    current_turn := Side.opponent }

/-- A state with a 2-card hand and all lanes open, on which a negative
card index is accepted rather than rejected. -/
def c2State : GameState :=
  { deck := []
    playerHand := [⟨Color.red, 1⟩, ⟨Color.red, 2⟩]
    opponentHand := []
    flags := List.replicate 9 emptyFlag
    current_turn := Side.player }

/-- One side holds three adjacent lane results. -/
def hasRun (x : Res) : List (Option Res) → Bool
  | r0 :: r1 :: r2 :: rest =>
    if r0 = some x ∧ r1 = some x ∧ r2 = some x then true
    else hasRun x (r1 :: r2 :: rest)
  | _ => false

/-- The spec's win condition for one side: at least 5 lanes, or 3 lanes
at mutually adjacent positions; a drawn or undecided lane counts toward
neither and breaks runs. -/
def sideCond (x : Res) (rs : List (Option Res)) : Prop :=
  5 ≤ rs.countP (fun r => r = some x) ∨ hasRun x rs = true

instance (x : Res) (rs : List (Option Res)) : Decidable (sideCond x rs) := by
  unfold sideCond
  infer_instance

/-- A complete lane that the player wins (trio of 2 against a high card). -/
def pWinLane : GameFlag :=
  ⟨[⟨Color.red, 2⟩, ⟨Color.blue, 2⟩, ⟨Color.green, 2⟩],
   [⟨Color.red, 1⟩, ⟨Color.blue, 3⟩, ⟨Color.green, 5⟩], some Res.player⟩

/-- A complete lane that the opponent wins. -/
def oWinLane : GameFlag :=
  ⟨[⟨Color.red, 1⟩, ⟨Color.blue, 3⟩, ⟨Color.green, 5⟩],
   [⟨Color.red, 2⟩, ⟨Color.blue, 2⟩, ⟨Color.green, 2⟩], some Res.opponent⟩

/-- A complete lane that is a draw (identical trios on both sides). -/
def drawLane : GameFlag :=
  ⟨[⟨Color.red, 1⟩, ⟨Color.blue, 1⟩, ⟨Color.green, 1⟩],
   [⟨Color.red, 1⟩, ⟨Color.blue, 1⟩, ⟨Color.green, 1⟩], some Res.draw⟩

/-- Lane results [o,o,o,o,o,p,p,p,-]: the opponent holds 5 lanes while
the player holds 3 adjacent lanes. -/
def c3State : GameState :=
  { deck := []
    playerHand := []
    opponentHand := []
    flags := [oWinLane, oWinLane, oWinLane, oWinLane, oWinLane, pWinLane, pWinLane, pWinLane,
      emptyFlag]
    current_turn := Side.player }

/-- The spec's 5-lane example board [p,o,p,o,p,draw,p,o,p]. -/
def c3wState : GameState :=
  { deck := []
    playerHand := []
    opponentHand := []
    flags := [pWinLane, oWinLane, pWinLane, oWinLane, pWinLane, drawLane, pWinLane, oWinLane,
      pWinLane]
    current_turn := Side.player }

/-- A board where the player holds 4 lanes with no 3 adjacent. -/
def c3wState2 : GameState :=
  { deck := []
    playerHand := []
    opponentHand := []
    flags := [pWinLane, oWinLane, pWinLane, oWinLane, pWinLane, drawLane, pWinLane, oWinLane,
      emptyFlag]
    current_turn := Side.player }

/-- A board of nine drawn lanes. -/
def allDrawnState : GameState :=
  { deck := []
    playerHand := []
    opponentHand := []
    flags := List.replicate 9 drawLane
    current_turn := Side.player }

/-- Sorting three naturals ascending yields a sorted three-element list. -/
lemma sorted3 (va vb vc : Nat) :
    ∃ x y z, List.insertionSort (· ≤ ·) [va, vb, vc] = [x, y, z] ∧ x ≤ y ∧ y ≤ z := by
  have hl : (List.insertionSort (· ≤ ·) [va, vb, vc]).length = 3 := by
    rw [List.length_insertionSort]; rfl
  obtain ⟨x, y, z, hxyz⟩ := List.length_eq_three.mp hl
  have hs := List.sorted_insertionSort (· ≤ ·) [va, vb, vc]
  rw [hxyz] at hs
  simp only [List.sorted_cons, List.mem_cons, List.mem_singleton] at hs
  exact ⟨x, y, z, hxyz, by tauto, by tauto⟩

/-- A list sorted ascending is unchanged by the ascending insertion sort. -/
lemma insertionSort_of_sorted3 {x y z : Nat} (hxy : x ≤ y) (hyz : y ≤ z) :
    List.insertionSort (· ≤ ·) [x, y, z] = [x, y, z] := by
  apply List.Sorted.insertionSort_eq
  simp only [List.sorted_cons, List.forall_mem_cons, List.forall_mem_nil,
    List.sorted_nil, and_true]
  exact ⟨⟨hxy, le_trans hxy hyz, by simp⟩, ⟨hyz, by simp⟩, by simp⟩

/-- The key of any 3-card hand is a nonempty list whose head (the
category) lies between 1 and 6. -/
lemma evaluate_hand_head (cards : List Card) (h : cards.length = 3) :
    ∃ k t, evaluate_hand cards = k :: t ∧ 1 ≤ k ∧ k ≤ 6 := by
  have h3 : ¬ (cards.length < 3) := by omega
  simp only [evaluate_hand, h3, if_false]
  split_ifs <;> exact ⟨_, _, rfl, by omega, by omega⟩

/-- Lexicographic comparison: a strictly smaller head decides. -/
lemma pyListLt_cons_of_lt {x y : Nat} (xs ys : List Nat) (h : x < y) :
    pyListLt (x :: xs) (y :: ys) = true := by
  simp [pyListLt, h]

/-- Lexicographic comparison: a strictly greater head refutes. -/
lemma pyListLt_cons_of_gt {x y : Nat} (xs ys : List Nat) (h : y < x) :
    pyListLt (x :: xs) (y :: ys) = false := by
  simp [pyListLt, h, Nat.le_of_lt h]

/-- Exactly one of strictly-less, strictly-greater, equal holds for the
Python lexicographic comparison of two numeric tuples. -/
lemma pyListLt_trichotomy (a : List Nat) : ∀ b : List Nat,
    (pyListLt a b = true ∧ pyListLt b a = false ∧ a ≠ b) ∨
    (pyListLt a b = false ∧ pyListLt b a = true ∧ a ≠ b) ∨
    (pyListLt a b = false ∧ pyListLt b a = false ∧ a = b) := by
  induction a with
  | nil =>
    intro b
    cases b with
    | nil => exact Or.inr (Or.inr ⟨rfl, rfl, rfl⟩)
    | cons y ys => exact Or.inl ⟨rfl, rfl, by simp⟩
  | cons x xs ih =>
    intro b
    cases b with
    | nil => exact Or.inr (Or.inl ⟨rfl, rfl, by simp⟩)
    | cons y ys =>
      rcases Nat.lt_trichotomy x y with h | h | h
      · exact Or.inl ⟨pyListLt_cons_of_lt xs ys h, pyListLt_cons_of_gt ys xs h, by
          intro hc; injection hc with h1 _; omega⟩
      · subst h
        have hred : ∀ t u : List Nat, pyListLt (x :: t) (x :: u) = pyListLt t u := by
          intro t u; simp [pyListLt]
        rcases ih ys with ⟨h1, h2, h3⟩ | ⟨h1, h2, h3⟩ | ⟨h1, h2, h3⟩
        · exact Or.inl ⟨by rw [hred]; exact h1, by rw [hred]; exact h2, by
            intro hc; injection hc with _ hc2; exact h3 hc2⟩
        · exact Or.inr (Or.inl ⟨by rw [hred]; exact h1, by rw [hred]; exact h2, by
            intro hc; injection hc with _ hc2; exact h3 hc2⟩)
        · exact Or.inr (Or.inr ⟨by rw [hred]; exact h1, by rw [hred]; exact h2, by rw [h3]⟩)
      · exact Or.inr (Or.inl ⟨pyListLt_cons_of_gt xs ys h, pyListLt_cons_of_lt ys xs h, by
          intro hc; injection hc with h1 _; omega⟩)

/-- The evaluator agrees with the section 4.1 reference key on one triple
of cards. -/
lemma evaluate_hand_eq_specKey (a b c : Card) :
    evaluate_hand [a, b, c] = specKey [a, b, c] := by
  obtain ⟨x, y, z, hxyz, hxy, hyz⟩ := sorted3 a.value b.value c.value
  have hmap : List.map Card.value [a, b, c] = [a.value, b.value, c.value] := rfl
  have hss : List.insertionSort (· ≤ ·) [x, y, z] = [x, y, z] :=
    insertionSort_of_sorted3 hxy hyz
  have hcolIff : (a.color = b.color ∧ b.color = c.color ∧ a.color = c.color) ↔
      (a.color = b.color ∧ b.color = c.color) :=
    ⟨fun h => ⟨h.1, h.2.1⟩, fun h => ⟨h.1, h.2, h.1.trans h.2⟩⟩
  simp only [evaluate_hand, specKey, hmap, hxyz, hss, hcolIff, List.length_cons,
    List.length_nil, List.getD_cons_zero, List.getD_cons_succ, List.reverse_cons,
    List.reverse_nil, List.nil_append, List.cons_append, List.map_cons, List.map_nil]
  norm_num
  by_cases hsame : a.color = b.color ∧ b.color = c.color
  · simp only [hsame, and_true, true_and, not_true, and_false, false_and, if_false]
    split_ifs <;> first | rfl | omega | tauto
  · simp only [hsame, and_false, false_and, if_false, not_false_iff, and_true, true_and]
    split_ifs <;> first | rfl | omega | tauto

/-- C1: for every list of exactly 3 cards, `evaluate_hand` returns the
strength key of the section 4.1 reference definition (`specKey`), and keys
are compared lexicographically with the category (the head) dominating
every tiebreaker. -/
theorem evaluate_hand_matches_specKey :
    (∀ cards : List Card, cards.length = 3 → evaluate_hand cards = specKey cards) ∧
    (∀ h1 h2 : List Card, h1.length = 3 → h2.length = 3 →
      (evaluate_hand h1).headD 0 < (evaluate_hand h2).headD 0 →
      pyListLt (evaluate_hand h1) (evaluate_hand h2) = true ∧
      pyListLt (evaluate_hand h2) (evaluate_hand h1) = false) := by
  constructor
  · intro cards hlen
    obtain ⟨a, b, c, rfl⟩ := List.length_eq_three.mp hlen
    exact evaluate_hand_eq_specKey a b c
  · intro h1 h2 hl1 hl2 hlt
    obtain ⟨k1, t1, he1, _, _⟩ := evaluate_hand_head h1 hl1
    obtain ⟨k2, t2, he2, _, _⟩ := evaluate_hand_head h2 hl2
    rw [he1, he2]
    rw [he1, he2] at hlt
    simp only [List.headD_cons] at hlt
    exact ⟨pyListLt_cons_of_lt t1 t2 hlt, pyListLt_cons_of_gt t2 t1 hlt⟩

/-- C1 witness: the evaluator agrees with the reference key on the pair
formation A2 A2 B5, and the pair category dominates the high card
category for concrete hands. -/
theorem evaluate_hand_matches_specKey_w :
    evaluate_hand [⟨Color.red, 2⟩, ⟨Color.red, 2⟩, ⟨Color.blue, 5⟩] =
      specKey [⟨Color.red, 2⟩, ⟨Color.red, 2⟩, ⟨Color.blue, 5⟩] ∧
    pyListLt (evaluate_hand [⟨Color.red, 2⟩, ⟨Color.blue, 7⟩, ⟨Color.green, 9⟩])
      (evaluate_hand [⟨Color.red, 2⟩, ⟨Color.red, 2⟩, ⟨Color.blue, 5⟩]) = true :=
  ⟨evaluate_hand_matches_specKey.1 _ (by decide),
   (evaluate_hand_matches_specKey.2
      [⟨Color.red, 2⟩, ⟨Color.blue, 7⟩, ⟨Color.green, 9⟩]
      [⟨Color.red, 2⟩, ⟨Color.red, 2⟩, ⟨Color.blue, 5⟩]
      (by decide) (by decide) (by decide)).1⟩

/-- C4: the order induced by `evaluate_hand` keys under the Python
lexicographic comparison is trichotomous on 3-card formations, category
precedence is absolute (a higher category always wins regardless of
tiebreakers), and the concrete examples hold: the trio A4 B4 C4 beats the
straight flush A7 A8 A9, the straight flush A1 A2 A3 beats the flush
A1 A5 A9, and the pair A2 A2 B5 beats the high card A2 B7 C9. -/
theorem evaluator_order_trichotomy_and_precedence :
    (∀ h1 h2 : List Card, h1.length = 3 → h2.length = 3 →
      (pyListLt (evaluate_hand h1) (evaluate_hand h2) = true ∧
        pyListLt (evaluate_hand h2) (evaluate_hand h1) = false ∧
        evaluate_hand h1 ≠ evaluate_hand h2) ∨
      (pyListLt (evaluate_hand h1) (evaluate_hand h2) = false ∧
        pyListLt (evaluate_hand h2) (evaluate_hand h1) = true ∧
        evaluate_hand h1 ≠ evaluate_hand h2) ∨
      (pyListLt (evaluate_hand h1) (evaluate_hand h2) = false ∧
        pyListLt (evaluate_hand h2) (evaluate_hand h1) = false ∧
        evaluate_hand h1 = evaluate_hand h2)) ∧
    (∀ h1 h2 : List Card, h1.length = 3 → h2.length = 3 →
      (evaluate_hand h2).headD 0 < (evaluate_hand h1).headD 0 →
      pyListLt (evaluate_hand h2) (evaluate_hand h1) = true ∧
      pyListLt (evaluate_hand h1) (evaluate_hand h2) = false) ∧
    pyListLt (evaluate_hand [⟨Color.red, 7⟩, ⟨Color.red, 8⟩, ⟨Color.red, 9⟩])
      (evaluate_hand [⟨Color.red, 4⟩, ⟨Color.blue, 4⟩, ⟨Color.green, 4⟩]) = true ∧
    pyListLt (evaluate_hand [⟨Color.red, 1⟩, ⟨Color.red, 5⟩, ⟨Color.red, 9⟩])
      (evaluate_hand [⟨Color.red, 1⟩, ⟨Color.red, 2⟩, ⟨Color.red, 3⟩]) = true ∧
    pyListLt (evaluate_hand [⟨Color.red, 2⟩, ⟨Color.blue, 7⟩, ⟨Color.green, 9⟩])
      (evaluate_hand [⟨Color.red, 2⟩, ⟨Color.red, 2⟩, ⟨Color.blue, 5⟩]) = true := by
  refine ⟨?_, ?_, by decide, by decide, by decide⟩
  · intro h1 h2 _ _
    exact pyListLt_trichotomy (evaluate_hand h1) (evaluate_hand h2)
  · intro h1 h2 hl1 hl2 hlt
    obtain ⟨k1, t1, he1, _, _⟩ := evaluate_hand_head h1 hl1
    obtain ⟨k2, t2, he2, _, _⟩ := evaluate_hand_head h2 hl2
    rw [he1, he2]
    rw [he1, he2] at hlt
    simp only [List.headD_cons] at hlt
    exact ⟨pyListLt_cons_of_lt t2 t1 hlt, pyListLt_cons_of_gt t1 t2 hlt⟩

/-- C4 witness: trichotomy and category dominance applied to the concrete
trio A4 B4 C4 against the straight flush A7 A8 A9. -/
theorem evaluator_order_trichotomy_and_precedence_w :
    ((pyListLt (evaluate_hand [⟨Color.red, 4⟩, ⟨Color.blue, 4⟩, ⟨Color.green, 4⟩])
        (evaluate_hand [⟨Color.red, 7⟩, ⟨Color.red, 8⟩, ⟨Color.red, 9⟩]) = true ∧
      pyListLt (evaluate_hand [⟨Color.red, 7⟩, ⟨Color.red, 8⟩, ⟨Color.red, 9⟩])
        (evaluate_hand [⟨Color.red, 4⟩, ⟨Color.blue, 4⟩, ⟨Color.green, 4⟩]) = false ∧
      evaluate_hand [⟨Color.red, 4⟩, ⟨Color.blue, 4⟩, ⟨Color.green, 4⟩] ≠
        evaluate_hand [⟨Color.red, 7⟩, ⟨Color.red, 8⟩, ⟨Color.red, 9⟩]) ∨
    (pyListLt (evaluate_hand [⟨Color.red, 4⟩, ⟨Color.blue, 4⟩, ⟨Color.green, 4⟩])
        (evaluate_hand [⟨Color.red, 7⟩, ⟨Color.red, 8⟩, ⟨Color.red, 9⟩]) = false ∧
      pyListLt (evaluate_hand [⟨Color.red, 7⟩, ⟨Color.red, 8⟩, ⟨Color.red, 9⟩])
        (evaluate_hand [⟨Color.red, 4⟩, ⟨Color.blue, 4⟩, ⟨Color.green, 4⟩]) = true ∧
      evaluate_hand [⟨Color.red, 4⟩, ⟨Color.blue, 4⟩, ⟨Color.green, 4⟩] ≠
        evaluate_hand [⟨Color.red, 7⟩, ⟨Color.red, 8⟩, ⟨Color.red, 9⟩]) ∨
    (pyListLt (evaluate_hand [⟨Color.red, 4⟩, ⟨Color.blue, 4⟩, ⟨Color.green, 4⟩])
        (evaluate_hand [⟨Color.red, 7⟩, ⟨Color.red, 8⟩, ⟨Color.red, 9⟩]) = false ∧
      pyListLt (evaluate_hand [⟨Color.red, 7⟩, ⟨Color.red, 8⟩, ⟨Color.red, 9⟩])
        (evaluate_hand [⟨Color.red, 4⟩, ⟨Color.blue, 4⟩, ⟨Color.green, 4⟩]) = false ∧
      evaluate_hand [⟨Color.red, 4⟩, ⟨Color.blue, 4⟩, ⟨Color.green, 4⟩] =
        evaluate_hand [⟨Color.red, 7⟩, ⟨Color.red, 8⟩, ⟨Color.red, 9⟩])) :=
  evaluator_order_trichotomy_and_precedence.1
    [⟨Color.red, 4⟩, ⟨Color.blue, 4⟩, ⟨Color.green, 4⟩]
    [⟨Color.red, 7⟩, ⟨Color.red, 8⟩, ⟨Color.red, 9⟩] (by decide) (by decide)

/-- C9: a list of fewer than 3 cards evaluates to the sentinel key (0, 0),
which compares strictly below the key of every complete 3-card formation
(never equal, never above). -/
theorem incomplete_formation_sentinel :
    (∀ cards : List Card, cards.length < 3 → evaluate_hand cards = [0, 0]) ∧
    (∀ cards : List Card, cards.length = 3 →
      pyListLt [0, 0] (evaluate_hand cards) = true ∧
      pyListLt (evaluate_hand cards) [0, 0] = false ∧
      evaluate_hand cards ≠ [0, 0]) := by
  constructor
  · intro cards h
    rw [evaluate_hand, if_pos h]
  · intro cards hlen
    obtain ⟨k, t, he, hk1, _⟩ := evaluate_hand_head cards hlen
    rw [he]
    refine ⟨pyListLt_cons_of_lt _ _ hk1, pyListLt_cons_of_gt _ _ hk1, ?_⟩
    intro hc
    injection hc with hc1 _
    omega

/-- C9 witness: the empty and single-card formations evaluate to the
sentinel, which is strictly below the key of the high card A2 B7 C9. -/
theorem incomplete_formation_sentinel_w :
    evaluate_hand [⟨Color.red, 9⟩] = [0, 0] ∧
    pyListLt [0, 0] (evaluate_hand [⟨Color.red, 2⟩, ⟨Color.blue, 7⟩, ⟨Color.green, 9⟩]) = true :=
  ⟨incomplete_formation_sentinel.1 [⟨Color.red, 9⟩] (by decide),
   (incomplete_formation_sentinel.2 [⟨Color.red, 2⟩, ⟨Color.blue, 7⟩, ⟨Color.green, 9⟩]
      (by decide)).1⟩

@[simp] lemma setHand_hands_same (s : GameState) (p : Side) (l : List Card) :
    (s.setHand p l).hands p = l := by cases p <;> rfl

@[simp] lemma setHand_deck (s : GameState) (p : Side) (l : List Card) :
    (s.setHand p l).deck = s.deck := by cases p <;> rfl

@[simp] lemma setHand_flags (s : GameState) (p : Side) (l : List Card) :
    (s.setHand p l).flags = s.flags := by cases p <;> rfl

@[simp] lemma setHand_turn (s : GameState) (p : Side) (l : List Card) :
    (s.setHand p l).current_turn = s.current_turn := by cases p <;> rfl

lemma setHand_hands_other (s : GameState) {p q : Side} (l : List Card) (h : q ≠ p) :
    (s.setHand p l).hands q = s.hands q := by
  cases p <;> cases q <;> first | rfl | exact absurd rfl h

@[simp] lemma withFlags_hands (s : GameState) (F : List GameFlag) (q : Side) :
    (GameState.hands { s with flags := F } q) = s.hands q := by cases q <;> rfl

@[simp] lemma withTurn_hands (s : GameState) (t : Side) (q : Side) :
    (GameState.hands { s with current_turn := t } q) = s.hands q := by cases q <;> rfl

lemma pyIdx_lt {n : Nat} {i : Int} {k : Nat} (h : pyIdx n i = some k) : k < n := by
  unfold pyIdx at h
  split_ifs at h <;> simp only [Option.some.injEq] at h <;> omega

lemma pyIdx_nonneg {n : Nat} {i : Int} (h0 : 0 ≤ i) (hn : i < n) :
    pyIdx n i = some i.toNat := by
  unfold pyIdx
  rw [if_neg (by omega), if_pos hn]

lemma pyPop_shape {α : Type} {l : List α} {i : Int} {a : α} {l' : List α}
    (h : pyPop l i = some (a, l')) :
    ∃ k, pyIdx l.length i = some k ∧ l[k]? = some a ∧ l' = l.eraseIdx k := by
  unfold pyPop at h
  split at h
  case h_1 k hk =>
    rcases hg : l[k]? with _ | b
    · rw [hg] at h; simp at h
    · rw [hg] at h
      simp only [Option.map_some', Option.some.injEq, Prod.mk.injEq] at h
      exact ⟨k, hk, by rw [hg, h.1], h.2.symm⟩
  case h_2 => simp at h

lemma perm_cons_eraseIdx {α : Type} :
    ∀ (l : List α) (k : Nat) (a : α), l[k]? = some a → l.Perm (a :: l.eraseIdx k) := by
  intro l
  induction l with
  | nil => intro k a h; simp at h
  | cons x xs ih =>
    intro k a h
    cases k with
    | zero =>
      simp only [List.getElem?_cons_zero, Option.some.injEq] at h
      subst h
      exact List.Perm.refl _
    | succ k =>
      simp only [List.getElem?_cons_succ] at h
      have hp := ih k a h
      exact (List.Perm.cons x hp).trans (List.Perm.swap a x _)

lemma insertIdx_perm_cons {α : Type} :
    ∀ (l : List α) (k : Nat) (a : α), k ≤ l.length → (l.insertIdx k a).Perm (a :: l) := by
  intro l
  induction l with
  | nil =>
    intro k a h
    have hk : k = 0 := by simpa using h
    subst hk
    simp
  | cons x xs ih =>
    intro k a h
    cases k with
    | zero => simp
    | succ k =>
      simp only [List.insertIdx_succ_cons]
      exact (List.Perm.cons x (ih k a (by simpa using h))).trans (List.Perm.swap a x _)

lemma pyInsertPos_le (n : Nat) (i : Int) : pyInsertPos n i ≤ n := by
  unfold pyInsertPos
  split_ifs <;> omega

lemma flagsSum_set :
    ∀ (L : List GameFlag) (k : Nat) (g f0 : GameFlag), L[k]? = some f0 →
      ((L.set k g).map flagCards).sum + flagCards f0 = (L.map flagCards).sum + flagCards g := by
  intro L
  induction L with
  | nil => intro k g f0 h; simp at h
  | cons x xs ih =>
    intro k g f0 h
    cases k with
    | zero =>
      simp only [List.getElem?_cons_zero, Option.some.injEq] at h
      subst h
      simp only [List.set_cons_zero, List.map_cons, List.sum_cons]
      abel
    | succ k =>
      simp only [List.getElem?_cons_succ] at h
      have := ih k g f0 h
      simp only [List.set_cons_succ, List.map_cons, List.sum_cons]
      calc flagCards x + ((xs.set k g).map flagCards).sum + flagCards f0
          = flagCards x + (((xs.set k g).map flagCards).sum + flagCards f0) := by abel
        _ = flagCards x + ((xs.map flagCards).sum + flagCards g) := by rw [this]
        _ = flagCards x + (xs.map flagCards).sum + flagCards g := by abel

@[simp] lemma setSlots_slots_same (f : GameFlag) (p : Side) (l : List Card) :
    (f.setSlots p l).slots p = l := by cases p <;> rfl

lemma setSlots_slots_other (f : GameFlag) {p q : Side} (l : List Card) (h : q ≠ p) :
    (f.setSlots p l).slots q = f.slots q := by
  cases p <;> cases q <;> first | rfl | exact absurd rfl h

lemma completeCheck_slots (f : GameFlag) (q : Side) :
    (completeCheck f).slots q = f.slots q := by
  unfold completeCheck
  split <;> cases q <;> rfl

lemma completeCheck_flagCards (f : GameFlag) :
    flagCards (completeCheck f) = flagCards f := by
  unfold completeCheck
  split <;> rfl

lemma add_card_locked {f : GameFlag} (p : Side) (c : Card) (h : f.winner ≠ none) :
    f.add_card p c = (false, f) := by
  rw [GameFlag.add_card, if_pos h]

lemma flagCards_append (f : GameFlag) (p : Side) (c : Card) :
    flagCards (f.setSlots p (f.slots p ++ [c])) = flagCards f + {c} := by
  cases p <;>
  · simp only [flagCards, GameFlag.setSlots, GameFlag.slots]
    rw [← Multiset.coe_singleton, ← Multiset.coe_add]
    abel

lemma add_card_open {f : GameFlag} (p : Side) (c : Card) (hw : f.winner = none)
    (hlen : (f.slots p).length < 3) :
    f.add_card p c = (true, completeCheck (f.setSlots p (f.slots p ++ [c]))) := by
  rw [GameFlag.add_card, if_neg (by simp [hw]), if_pos hlen]

lemma drawStep_flags (s : GameState) (p : Side) : (drawStep s p).flags = s.flags := by
  unfold drawStep
  split
  · split
    · simp
    · rfl
  · rfl

lemma drawStep_turn (s : GameState) (p : Side) :
    (drawStep s p).current_turn = s.current_turn := by
  unfold drawStep
  split
  · split
    · simp
    · rfl
  · rfl

lemma drawStep_deck_empty {s : GameState} (p : Side) (h : s.deck = []) :
    drawStep s p = s := by
  unfold drawStep
  rw [h]
  rfl

lemma drawStep_full {s : GameState} (p : Side) (h : ¬ (s.hands p).length < 7) :
    drawStep s p = s := by
  unfold drawStep
  split
  · rw [if_neg h]
  · rfl

lemma drawStep_draw {s : GameState} (p : Side) (c : Card)
    (hc : s.deck.getLast? = some c) (h : (s.hands p).length < 7) :
    drawStep s p = { s.setHand p (s.hands p ++ [c]) with deck := s.deck.dropLast } := by
  unfold drawStep
  rw [hc]
  dsimp only
  rw [if_pos h]

lemma play_move_guard (s : GameState) (p : Side) (ci fi : Int)
    (h : ((s.hands p).length : Int) ≤ ci ∨ (s.flags.length : Int) ≤ fi) :
    s.play_move p ci fi = some (false, s) := by
  rw [GameState.play_move, if_pos h]

lemma play_move_badlane (s : GameState) (p : Side) (ci fi : Int) (fk : Nat) (flag : GameFlag)
    (hg : ¬ (((s.hands p).length : Int) ≤ ci ∨ (s.flags.length : Int) ≤ fi))
    (hfk : pyIdx s.flags.length fi = some fk)
    (hflag : s.flags[fk]? = some flag)
    (hbad : flag.winner ≠ none ∨ 3 ≤ (flag.slots p).length) :
    s.play_move p ci fi = some (false, s) := by
  rw [GameState.play_move, if_neg hg, hfk]
  dsimp only
  rw [hflag]
  dsimp only
  rw [if_pos hbad]

lemma play_move_open (s : GameState) (p : Side) (ci fi : Int) (fk : Nat) (flag : GameFlag)
    (card : Card) (hand1 : List Card)
    (hg : ¬ (((s.hands p).length : Int) ≤ ci ∨ (s.flags.length : Int) ≤ fi))
    (hfk : pyIdx s.flags.length fi = some fk)
    (hflag : s.flags[fk]? = some flag)
    (hw : flag.winner = none)
    (hlen : (flag.slots p).length < 3)
    (hpop : pyPop (s.hands p) ci = some (card, hand1)) :
    s.play_move p ci fi = some (true,
      { drawStep { s.setHand p hand1 with
          flags := s.flags.set fk (completeCheck (flag.setSlots p (flag.slots p ++ [card]))) } p
        with current_turn := p.other }) := by
  rw [GameState.play_move, if_neg hg, hfk]
  dsimp only
  rw [hflag]
  dsimp only
  rw [if_neg (by simp [hw]; omega), hpop]
  dsimp only
  rw [add_card_open p card hw hlen]
  rfl

lemma play_move_some_false {s s' : GameState} {p : Side} {ci fi : Int}
    (h : s.play_move p ci fi = some (false, s')) :
    s' = s ∧ (((s.hands p).length : Int) ≤ ci ∨ (s.flags.length : Int) ≤ fi ∨
      ∃ fk flag, pyIdx s.flags.length fi = some fk ∧ s.flags[fk]? = some flag ∧
        (flag.winner ≠ none ∨ 3 ≤ (flag.slots p).length)) := by
  rw [GameState.play_move] at h
  split at h
  case isTrue hg =>
    simp only [Option.some.injEq, Prod.mk.injEq] at h
    exact ⟨h.2.symm, hg.imp id Or.inl⟩
  case isFalse hg =>
    split at h
    case h_1 => simp at h
    case h_2 fk hfk =>
      split at h
      case h_1 => simp at h
      case h_2 flag hflag =>
        split at h
        case isTrue hbad =>
          simp only [Option.some.injEq, Prod.mk.injEq] at h
          exact ⟨h.2.symm, Or.inr (Or.inr ⟨fk, flag, hfk, hflag, hbad⟩)⟩
        case isFalse hbad =>
          split at h
          case h_1 => simp at h
          case h_2 card hand1 hpop =>
            split at h
            next ok flag2 hadd =>
              split at h
              case isTrue hok => simp at h
              case isFalse hok =>
                exfalso
                rw [not_or] at hbad
                have hw : flag.winner = none := not_ne_iff.mp hbad.1
                have hlen : (flag.slots p).length < 3 := by omega
                rw [add_card_open p card hw hlen] at hadd
                simp only [Prod.mk.injEq] at hadd
                exact hok hadd.1.symm

lemma play_move_some_true {s s' : GameState} {p : Side} {ci fi : Int}
    (h : s.play_move p ci fi = some (true, s')) :
    ∃ fk flag card hand1,
      pyIdx s.flags.length fi = some fk ∧
      s.flags[fk]? = some flag ∧
      flag.winner = none ∧
      (flag.slots p).length < 3 ∧
      pyPop (s.hands p) ci = some (card, hand1) ∧
      s' = { drawStep { s.setHand p hand1 with
               flags := s.flags.set fk (completeCheck (flag.setSlots p (flag.slots p ++ [card]))) } p
             with current_turn := p.other } := by
  rw [GameState.play_move] at h
  split at h
  case isTrue hg => simp at h
  case isFalse hg =>
    split at h
    case h_1 => simp at h
    case h_2 fk hfk =>
      split at h
      case h_1 => simp at h
      case h_2 flag hflag =>
        split at h
        case isTrue hbad => simp at h
        case isFalse hbad =>
          split at h
          case h_1 => simp at h
          case h_2 card hand1 hpop =>
            split at h
            next ok flag2 hadd =>
              split at h
              case isTrue hok =>
                rw [not_or] at hbad
                have hw : flag.winner = none := not_ne_iff.mp hbad.1
                have hlen : (flag.slots p).length < 3 := by omega
                rw [add_card_open p card hw hlen] at hadd
                simp only [Prod.mk.injEq] at hadd
                simp only [Option.some.injEq, Prod.mk.injEq, true_and] at h
                refine ⟨fk, flag, card, hand1, hfk, hflag, hw, hlen, hpop, ?_⟩
                rw [← h, hadd.2]
              case isFalse hok => simp at h

@[simp] lemma withDeck_hands (s : GameState) (d : List Card) (q : Side) :
    (GameState.hands { s with deck := d } q) = s.hands q := by cases q <;> rfl

/-- C7: a successful `play_move` flips the turn to the other player and
draws exactly one card from the back of the deck into the mover's hand
precisely when the deck is non-empty and the hand (after the placement)
holds fewer than 7 cards; an empty deck makes the draw a silent no-op.
A rejected `play_move` leaves the turn unchanged. -/
theorem play_move_draw_and_turn :
    (∀ (s s' : GameState) (p : Side) (ci fi : Int),
      s.play_move p ci fi = some (true, s') →
      s'.current_turn = p.other ∧
      (s.deck ≠ [] ∧ (s.hands p).length - 1 < 7 →
        s'.deck = s.deck.dropLast ∧ (s'.hands p).length = (s.hands p).length) ∧
      (s.deck = [] ∨ ¬ (s.hands p).length - 1 < 7 →
        s'.deck = s.deck ∧ (s'.hands p).length + 1 = (s.hands p).length)) ∧
    (∀ (s s' : GameState) (p : Side) (ci fi : Int),
      s.play_move p ci fi = some (false, s') →
      s'.current_turn = s.current_turn) := by
  constructor
  · intro s s' p ci fi h
    obtain ⟨fk, flag, card, hand1, hfk, hflag, hw, hlen, hpop, hs'⟩ := play_move_some_true h
    obtain ⟨k, hik, hget, hh1⟩ := pyPop_shape hpop
    have hklt : k < (s.hands p).length := pyIdx_lt hik
    have hh1len : hand1.length = (s.hands p).length - 1 := by
      have := List.length_eraseIdx_add_one hklt
      rw [hh1]
      omega
    set base : GameState :=
      { s.setHand p hand1 with
        flags := s.flags.set fk (completeCheck (flag.setSlots p (flag.slots p ++ [card]))) }
      with hbase
    have hbase_deck : base.deck = s.deck := by rw [hbase]; simp
    have hbase_hands : base.hands p = hand1 := by
      rw [hbase]
      simp only [withFlags_hands, setHand_hands_same]
    refine ⟨by rw [hs'], ?_, ?_⟩
    · rintro ⟨hdne, hh7⟩
      obtain ⟨c, hc⟩ : ∃ c, base.deck.getLast? = some c := by
        rw [hbase_deck]
        exact Option.isSome_iff_exists.mp (by rwa [List.getLast?_isSome])
      have hdraw := drawStep_draw p c hc (by rw [hbase_hands]; omega)
      constructor
      · rw [hs', hdraw]
        show base.deck.dropLast = s.deck.dropLast
        rw [hbase_deck]
      · rw [hs', withTurn_hands, hdraw, withDeck_hands, setHand_hands_same,
          hbase_hands, List.length_append, hh1len, List.length_singleton]
        omega
    · intro hcase
      have hstep : drawStep base p = base := by
        rcases hcase with hdeck | hh7
        · exact drawStep_deck_empty p (by rw [hbase_deck, hdeck])
        · exact drawStep_full p (by rw [hbase_hands]; omega)
      constructor
      · rw [hs', hstep]
        show base.deck = s.deck
        exact hbase_deck
      · rw [hs', withTurn_hands, hstep, hbase_hands, hh1len]
        omega
  · intro s s' p ci fi h
    rw [(play_move_some_false h).1]

/-- C7 witness: playing the only card of a 1-card hand with a 1-card deck
flips the turn and draws the deck card; a rejected move leaves the turn. -/
theorem play_move_draw_and_turn_w :
    (c7Succ.current_turn = Side.player.other ∧
      c7Succ.deck = c7State.deck.dropLast ∧
      (c7Succ.hands Side.player).length = (c7State.hands Side.player).length) ∧
    c7State.current_turn = c7State.current_turn := by
  have h : c7State.play_move Side.player 0 0 = some (true, c7Succ) := by decide
  have hr : c7State.play_move Side.player 5 0 = some (false, c7State) := by decide
  obtain ⟨h1, h2, _⟩ := play_move_draw_and_turn.1 c7State c7Succ Side.player 0 0 h
  obtain ⟨hd, hl⟩ := h2 ⟨by decide, by decide⟩
  exact ⟨⟨h1, hd, hl⟩, play_move_draw_and_turn.2 c7State c7State Side.player 5 0 hr⟩

/-- C5: a decided lane refuses every further card, unchanged, and once a
lane's winner is set no move ever changes that lane again. -/
theorem lane_lock_monotone :
    (∀ (f : GameFlag) (p : Side) (c : Card), f.winner ≠ none →
      f.add_card p c = (false, f)) ∧
    (∀ (s s' : GameState) (p : Side) (ci fi : Int) (b : Bool),
      s.play_move p ci fi = some (b, s') →
      ∀ (k : Nat) (f : GameFlag), s.flags[k]? = some f → f.winner ≠ none →
        s'.flags[k]? = some f) := by
  constructor
  · intro f p c h
    exact add_card_locked p c h
  · intro s s' p ci fi b h k f hk hw
    cases b
    · rw [(play_move_some_false h).1]
      exact hk
    · obtain ⟨fk, flag, card, hand1, hfk, hflag, hwf, hlen, hpop, hs'⟩ := play_move_some_true h
      have hflags : s'.flags =
          s.flags.set fk (completeCheck (flag.setSlots p (flag.slots p ++ [card]))) := by
        rw [hs']
        show (drawStep _ p).flags = _
        rw [drawStep_flags]
      have hkne : fk ≠ k := by
        intro he
        subst he
        rw [hk] at hflag
        injection hflag with he2
        subst he2
        exact hw hwf
      rw [hflags, List.getElem?_set_ne hkne]
      exact hk

/-- C5 witness: the locked lane rejects a further card unchanged, and a
move on another lane leaves the locked lane intact. -/
theorem lane_lock_monotone_w :
    lockedFlag.add_card Side.opponent ⟨Color.red, 9⟩ = (false, lockedFlag) ∧
    c5Succ.flags[0]? = some lockedFlag := by
  constructor
  · exact lane_lock_monotone.1 lockedFlag Side.opponent ⟨Color.red, 9⟩ (by decide)
  · exact lane_lock_monotone.2 c5State c5Succ Side.player 0 1 true (by decide) 0 lockedFlag
      (by decide) (by decide)

lemma pyIdx_nonneg_inv {n : Nat} {i : Int} {k : Nat}
    (h : pyIdx n i = some k) (h0 : 0 ≤ i) : k = i.toNat ∧ i < n := by
  unfold pyIdx at h
  split_ifs at h <;> simp only [Option.some.injEq] at h <;> omega

/-- C2 counterexample: `play_move` with the negative indices -1 (for the
card or for the lane) applies the move instead of rejecting it: the
Python guards only check the upper bounds, and a negative index selects
from the end of the list. -/
theorem play_move_negative_index_applied :
    (c2State.play_move Side.player (-1) 0).map Prod.fst = some true ∧
    (c2State.play_move Side.player 0 (-1)).map Prod.fst = some true ∧
    ¬ ((c2State.play_move Side.player (-1) 0).map Prod.fst = some false) := by
  refine ⟨by decide, by decide, by decide⟩

/-- C2 (amended): for non-negative indices, `play_move` rejects — returns
the not-applied bit with the state unchanged — exactly when the card
index is at or beyond the hand length, the lane index is at or beyond 9,
the target lane is locked, or the mover's side of that lane is full.
(A negative index is interpreted Python-style from the end of the list
and is not rejected.) -/
theorem play_move_reject_characterization (s : GameState) (p : Side) (ci fi : Int)
    (hci : 0 ≤ ci) (hfi : 0 ≤ fi) (h9 : s.flags.length = 9) :
    s.play_move p ci fi = some (false, s) ↔
      (((s.hands p).length : Int) ≤ ci ∨ (9 : Int) ≤ fi ∨
        ∃ flag, s.flags[fi.toNat]? = some flag ∧
          (flag.winner ≠ none ∨ 3 ≤ (flag.slots p).length)) := by
  constructor
  · intro h
    rcases (play_move_some_false h).2 with hg | hg | ⟨fk, flag, hfk, hflag, hbad⟩
    · exact Or.inl hg
    · rw [h9] at hg
      exact Or.inr (Or.inl hg)
    · obtain ⟨hk, _⟩ := pyIdx_nonneg_inv hfk hfi
      subst hk
      exact Or.inr (Or.inr ⟨flag, hflag, hbad⟩)
  · intro h
    by_cases hg : ((s.hands p).length : Int) ≤ ci ∨ ((s.flags.length : Int) ≤ fi)
    · exact play_move_guard s p ci fi hg
    · rcases h with h | h | ⟨flag, hflag, hbad⟩
      · exact play_move_guard s p ci fi (Or.inl h)
      · exact play_move_guard s p ci fi (Or.inr (by omega))
      · rw [not_or] at hg
        have hfi9 : fi < (s.flags.length : Int) := by omega
        exact play_move_badlane s p ci fi fi.toNat flag (by rw [not_or]; exact ⟨hg.1, by omega⟩)
          (pyIdx_nonneg hfi hfi9) hflag hbad

/-- C2 witness: on the concrete open state, a too-large card index and a
too-large lane index are rejected with the state unchanged. -/
theorem play_move_reject_characterization_w :
    c2State.play_move Side.player 5 0 = some (false, c2State) ∧
    c2State.play_move Side.player 0 11 = some (false, c2State) := by
  constructor
  · exact (play_move_reject_characterization c2State Side.player 5 0 (by decide) (by decide)
      (by decide)).mpr (Or.inl (by decide))
  · exact (play_move_reject_characterization c2State Side.player 0 11 (by decide) (by decide)
      (by decide)).mpr (Or.inr (Or.inl (by decide)))

lemma checkWindows_sound : ∀ (rs : List (Option Res)) (x : Res),
    checkWindows rs = some x →
    hasRun x rs = true ∧ (x = Res.player ∨ x = Res.opponent)
  | r0 :: r1 :: r2 :: rest, x, h => by
    rw [checkWindows] at h
    split_ifs at h with h1 h2
    · injection h with hx
      subst hx
      rw [hasRun, if_pos h1]
      exact ⟨rfl, Or.inl rfl⟩
    · injection h with hx
      subst hx
      rw [hasRun, if_pos h2]
      exact ⟨rfl, Or.inr rfl⟩
    · have ih := checkWindows_sound (r1 :: r2 :: rest) x h
      refine ⟨?_, ih.2⟩
      rw [hasRun]
      split_ifs with h3
      · rfl
      · exact ih.1
  | [], x, h => by simp [checkWindows] at h
  | [r], x, h => by simp [checkWindows] at h
  | [r, r'], x, h => by simp [checkWindows] at h

lemma checkWindows_of_runs : ∀ rs : List (Option Res),
    (hasRun Res.player rs = true → hasRun Res.opponent rs = false →
      checkWindows rs = some Res.player) ∧
    (hasRun Res.opponent rs = true → hasRun Res.player rs = false →
      checkWindows rs = some Res.opponent) ∧
    (hasRun Res.player rs = false → hasRun Res.opponent rs = false →
      checkWindows rs = none)
  | r0 :: r1 :: r2 :: rest => by
    have ih := checkWindows_of_runs (r1 :: r2 :: rest)
    refine ⟨?_, ?_, ?_⟩
    · intro hp ho
      rw [hasRun] at hp ho
      rw [checkWindows]
      split_ifs with h1 h2
      · rfl
      · rw [if_pos h2] at ho
        exact absurd ho (by simp)
      · rw [if_neg h1] at hp
        rw [if_neg h2] at ho
        exact ih.1 hp ho
    · intro ho hp
      rw [hasRun] at hp ho
      rw [checkWindows]
      split_ifs with h1 h2
      · rw [if_pos h1] at hp
        exact absurd hp (by simp)
      · rfl
      · rw [if_neg h1] at hp
        rw [if_neg h2] at ho
        exact ih.2.1 ho hp
    · intro hp ho
      rw [hasRun] at hp ho
      rw [checkWindows]
      split_ifs with h1 h2
      · rw [if_pos h1] at hp
        exact absurd hp (by simp)
      · rw [if_pos h2] at ho
        exact absurd ho (by simp)
      · rw [if_neg h1] at hp
        rw [if_neg h2] at ho
        exact ih.2.2 hp ho
  | [] =>
    ⟨fun h _ => by simp [hasRun] at h, fun h _ => by simp [hasRun] at h,
     fun _ _ => by simp [checkWindows]⟩
  | [r] =>
    ⟨fun h _ => by simp [hasRun] at h, fun h _ => by simp [hasRun] at h,
     fun _ _ => by simp [checkWindows]⟩
  | [r, r'] =>
    ⟨fun h _ => by simp [hasRun] at h, fun h _ => by simp [hasRun] at h,
     fun _ _ => by simp [checkWindows]⟩

lemma bool_false_of_not_true {b : Bool} (h : ¬ b = true) : b = false := by
  cases b
  · rfl
  · exact absurd rfl h

/-- C3 (amended): `check_game_over` awards the match only to a side whose
win condition (at least 5 lanes, or 3 adjacent lanes) holds; when exactly
one side's condition holds that side is returned, and when neither holds
no winner is returned.  (When both sides' conditions hold simultaneously,
the code's precedence — the player's 5-lane count first, the opponent's
5-lane count second, then the leftmost width-3 window with the player
checked first, decides which side is returned.) -/
theorem check_game_over_characterization (s : GameState) :
    (s.check_game_over = some Res.player →
      sideCond Res.player (s.flags.map GameFlag.get_winner)) ∧
    (s.check_game_over = some Res.opponent →
      sideCond Res.opponent (s.flags.map GameFlag.get_winner)) ∧
    (sideCond Res.player (s.flags.map GameFlag.get_winner) ∧
      ¬ sideCond Res.opponent (s.flags.map GameFlag.get_winner) →
      s.check_game_over = some Res.player) ∧
    (sideCond Res.opponent (s.flags.map GameFlag.get_winner) ∧
      ¬ sideCond Res.player (s.flags.map GameFlag.get_winner) →
      s.check_game_over = some Res.opponent) ∧
    (¬ sideCond Res.player (s.flags.map GameFlag.get_winner) ∧
      ¬ sideCond Res.opponent (s.flags.map GameFlag.get_winner) →
      s.check_game_over = none) := by
  refine ⟨?_, ?_, ?_, ?_, ?_⟩
  · intro h
    rw [GameState.check_game_over] at h
    split_ifs at h with hp ho
    · exact Or.inl hp
    · exact absurd h (by simp)
    · exact Or.inr (checkWindows_sound _ _ h).1
  · intro h
    rw [GameState.check_game_over] at h
    split_ifs at h with hp ho
    · exact absurd h (by simp)
    · exact Or.inl ho
    · exact Or.inr (checkWindows_sound _ _ h).1
  · rintro ⟨hpc, hoc⟩
    rw [sideCond, not_or] at hoc
    rw [GameState.check_game_over]
    split_ifs with hp ho
    · rfl
    · exact absurd ho hoc.1
    · rcases hpc with hp5 | hprun
      · exact absurd hp5 hp
      · exact (checkWindows_of_runs _).1 hprun (bool_false_of_not_true hoc.2)
  · rintro ⟨hoc, hpc⟩
    rw [sideCond, not_or] at hpc
    rw [GameState.check_game_over]
    split_ifs with hp ho
    · exact absurd hp hpc.1
    · rfl
    · rcases hoc with ho5 | horun
      · exact absurd ho5 ho
      · exact (checkWindows_of_runs _).2.1 horun (bool_false_of_not_true hpc.2)
  · rintro ⟨hpc, hoc⟩
    rw [sideCond, not_or] at hpc hoc
    rw [GameState.check_game_over]
    split_ifs with hp ho
    · exact absurd hp hpc.1
    · exact absurd ho hoc.1
    · exact (checkWindows_of_runs _).2.2
        (bool_false_of_not_true hpc.2) (bool_false_of_not_true hoc.2)

/-- C3 counterexample: on the board [o,o,o,o,o,p,p,p,-] the player holds
3 lanes at mutually adjacent positions, yet `check_game_over` does not
return the player: the opponent's 5-lane count takes precedence.  The
claimed biconditional therefore fails. -/
theorem check_game_over_not_iff :
    hasRun Res.player (c3State.flags.map GameFlag.get_winner) = true ∧
    c3State.check_game_over = some Res.opponent ∧
    c3State.check_game_over ≠ some Res.player := by
  refine ⟨by decide, by decide, by decide⟩

/-- C3 witness: 5 non-adjacent player lanes win the match for the player,
and 4 player lanes with no 3-in-a-row leave the match undecided. -/
theorem check_game_over_characterization_w :
    c3wState.check_game_over = some Res.player ∧
    c3wState2.check_game_over = none := by
  constructor
  · exact (check_game_over_characterization c3wState).2.2.1 ⟨by decide, by decide⟩
  · exact (check_game_over_characterization c3wState2).2.2.2.2 ⟨by decide, by decide⟩

lemma hasRun_false_of_all_draw {x : Res} (hx : x ≠ Res.draw) :
    ∀ rs : List (Option Res), (∀ r ∈ rs, r = some Res.draw) → hasRun x rs = false
  | r0 :: r1 :: r2 :: rest, hall => by
    rw [hasRun]
    have h0 : r0 = some Res.draw := hall r0 (by simp)
    rw [if_neg]
    · exact hasRun_false_of_all_draw hx (r1 :: r2 :: rest)
        (fun r hr => hall r (List.mem_cons_of_mem r0 hr))
    · rintro ⟨ha, _, _⟩
      rw [h0] at ha
      injection ha with ha2
      exact hx ha2.symm
  | [], _ => rfl
  | [r], _ => rfl
  | [r, r'], _ => rfl

/-- C10: the match scan never reports a drawn match — its result is
always the player, the opponent, or no winner — and on a board whose
decided lanes are all draws it reports no winner. -/
theorem check_game_over_never_draw :
    (∀ s : GameState, s.check_game_over ≠ some Res.draw) ∧
    (∀ s : GameState,
      (∀ r ∈ s.flags.map GameFlag.get_winner, r = some Res.draw) →
      s.check_game_over = none) := by
  constructor
  · intro s h
    rw [GameState.check_game_over] at h
    split_ifs at h with hp ho
    · exact absurd h (by simp)
    · exact absurd h (by simp)
    · rcases (checkWindows_sound _ _ h).2 with h2 | h2 <;> simp at h2
  · intro s hall
    rw [GameState.check_game_over]
    have hp : (s.flags.map GameFlag.get_winner).countP (fun r => r = some Res.player) = 0 := by
      rw [List.countP_eq_zero]
      intro r hr
      rw [hall r hr]
      simp
    have ho : (s.flags.map GameFlag.get_winner).countP (fun r => r = some Res.opponent) = 0 := by
      rw [List.countP_eq_zero]
      intro r hr
      rw [hall r hr]
      simp
    rw [hp, ho]
    rw [if_neg (by omega), if_neg (by omega)]
    exact (checkWindows_of_runs _).2.2
      (hasRun_false_of_all_draw (by simp) _ hall)
      (hasRun_false_of_all_draw (by simp) _ hall)

/-- C10 witness: the fully drawn board is reported as no winner, not as a
drawn match. -/
theorem check_game_over_never_draw_w :
    allDrawnState.check_game_over = none :=
  check_game_over_never_draw.2 allDrawnState (by decide)

lemma mem_available_actions {s : GameState} {p : Side} {c f : Nat}
    (h : (c, f) ∈ s.available_actions p) :
    c < (s.hands p).length ∧ f < s.flags.length := by
  rw [GameState.available_actions] at h
  simp only [List.mem_flatMap, List.mem_filterMap, List.mem_range] at h
  obtain ⟨i, hi, j, hj, hcond⟩ := h
  rcases hg : s.flags[j]? with _ | flag <;> rw [hg] at hcond <;> dsimp only at hcond
  · exact absurd hcond (by simp)
  · split_ifs at hcond
    simp only [Option.some.injEq, Prod.mk.injEq] at hcond
    obtain ⟨rfl, rfl⟩ := hcond
    exact ⟨hi, hj⟩

/-- C8: the action encoding `card_index * 9 + flag_index` and the
decoding `(action / 9, action mod 9)` are exact inverses over [0,63), and
every pair enumerated by `available_actions` (hence every action built by
`get_valid_actions`) decodes back to the pair it was built from. -/
theorem action_encoding_roundtrip :
    (∀ a : Nat, a < 63 →
      decode_action ((decode_action a).1 * 9 + (decode_action a).2) = decode_action a) ∧
    (∀ s : GameState, s.flags.length = 9 → ∀ c f : Nat,
      (c, f) ∈ s.available_actions Side.player →
      (c * 9 + f) ∈ get_valid_actions s ∧ decode_action (c * 9 + f) = (c, f)) := by
  constructor
  · intro a _
    rw [decode_action, decode_action]
    have := Nat.div_add_mod a 9
    simp only [Prod.mk.injEq]
    omega
  · intro s h9 c f h
    obtain ⟨hc, hf⟩ := mem_available_actions h
    rw [h9] at hf
    constructor
    · rw [get_valid_actions]
      exact List.mem_map.mpr ⟨(c, f), h, rfl⟩
    · rw [decode_action]
      simp only [Prod.mk.injEq]
      omega

/-- C8 witness: the round trip at action 23, and the decoding of the
encoded pair (0, 3) enumerated on a concrete open board. -/
theorem action_encoding_roundtrip_w :
    decode_action ((decode_action 23).1 * 9 + (decode_action 23).2) = decode_action 23 ∧
    decode_action (0 * 9 + 3) = (0, 3) := by
  constructor
  · exact action_encoding_roundtrip.1 23 (by decide)
  · exact (action_encoding_roundtrip.2 c2State (by decide) 0 3 (by decide)).2

lemma coe_cons_eq {α : Type} (a : α) (l : List α) :
    ((a :: l : List α) : Multiset α) = ↑l + {a} := by
  rw [← Multiset.cons_coe, ← Multiset.singleton_add, add_comm]

lemma coe_concat_eq {α : Type} (a : α) (l : List α) :
    ((l ++ [a] : List α) : Multiset α) = ↑l + {a} := by
  rw [← Multiset.coe_add, ← Multiset.coe_singleton]

lemma drawStep_cardsOf (s : GameState) (p : Side) : cardsOf (drawStep s p) = cardsOf s := by
  unfold drawStep
  split
  case h_1 c hc =>
    split_ifs with h7
    · obtain ⟨ys, hys⟩ := List.getLast?_eq_some_iff.mp hc
      cases p
      · show (s.deck.dropLast : Multiset Card) + ↑(s.playerHand ++ [c]) + ↑s.opponentHand +
          (s.flags.map flagCards).sum = cardsOf s
        rw [cardsOf, hys, List.dropLast_concat, coe_concat_eq, coe_concat_eq]
        abel
      · show (s.deck.dropLast : Multiset Card) + ↑s.playerHand + ↑(s.opponentHand ++ [c]) +
          (s.flags.map flagCards).sum = cardsOf s
        rw [cardsOf, hys, List.dropLast_concat, coe_concat_eq, coe_concat_eq]
        abel
    · rfl
  case h_2 => rfl

lemma play_move_cardsOf {s s' : GameState} {p : Side} {ci fi : Int} {b : Bool}
    (h : s.play_move p ci fi = some (b, s')) : cardsOf s' = cardsOf s := by
  cases b
  · rw [(play_move_some_false h).1]
  · obtain ⟨fk, flag, card, hand1, hfk, hflag, hw, hlen, hpop, hs'⟩ := play_move_some_true h
    obtain ⟨k, hik, hget, hh1⟩ := pyPop_shape hpop
    have hhand : (s.hands p : Multiset Card) = ↑hand1 + {card} := by
      have hperm := perm_cons_eraseIdx (s.hands p) k card hget
      rw [hh1, Multiset.coe_eq_coe.mpr hperm, coe_cons_eq]
    have hflagsum : ((s.flags.set fk
          (completeCheck (flag.setSlots p (flag.slots p ++ [card])))).map flagCards).sum +
          flagCards flag = (s.flags.map flagCards).sum +
          flagCards (completeCheck (flag.setSlots p (flag.slots p ++ [card]))) :=
      flagsSum_set s.flags fk _ flag hflag
    have hcc : flagCards (completeCheck (flag.setSlots p (flag.slots p ++ [card]))) =
        flagCards flag + {card} := by
      rw [completeCheck_flagCards, flagCards_append]
    rw [hcc] at hflagsum
    have hS : ((s.flags.set fk
          (completeCheck (flag.setSlots p (flag.slots p ++ [card])))).map flagCards).sum =
        (s.flags.map flagCards).sum + {card} := by
      have h2 : ((s.flags.set fk
            (completeCheck (flag.setSlots p (flag.slots p ++ [card])))).map flagCards).sum +
            flagCards flag =
          ((s.flags.map flagCards).sum + {card}) + flagCards flag := by
        rw [hflagsum]
        abel
      exact add_right_cancel h2
    have hbase : cardsOf { s.setHand p hand1 with
        flags := s.flags.set fk (completeCheck (flag.setSlots p (flag.slots p ++ [card]))) } =
        cardsOf s := by
      cases p
      · show (s.deck : Multiset Card) + ↑hand1 + ↑s.opponentHand +
            ((s.flags.set fk
              (completeCheck (flag.setSlots Side.player
                (flag.slots Side.player ++ [card])))).map flagCards).sum = cardsOf s
        rw [cardsOf, hS]
        have hh : (s.playerHand : Multiset Card) = ↑hand1 + {card} := hhand
        rw [hh]
        abel
      · show (s.deck : Multiset Card) + ↑s.playerHand + ↑hand1 +
            ((s.flags.set fk
              (completeCheck (flag.setSlots Side.opponent
                (flag.slots Side.opponent ++ [card])))).map flagCards).sum = cardsOf s
        rw [cardsOf, hS]
        have hh : (s.opponentHand : Multiset Card) = ↑hand1 + {card} := hhand
        rw [hh]
        abel
    rw [hs']
    show cardsOf (drawStep _ _) = cardsOf s
    rw [drawStep_cardsOf, hbase]

lemma dealOne_total {deck hand deck' hand' : List Card}
    (h : dealOne deck hand = some (deck', hand')) :
    (deck' : Multiset Card) + ↑hand' = ↑deck + ↑hand := by
  unfold dealOne at h
  split at h
  case h_1 c hc =>
    simp only [Option.some.injEq, Prod.mk.injEq] at h
    obtain ⟨ys, hys⟩ := List.getLast?_eq_some_iff.mp hc
    rw [← h.1, ← h.2, hys, List.dropLast_concat, coe_concat_eq, coe_concat_eq]
    abel
  case h_2 => simp at h

lemma dealLoop_total : ∀ (n : Nat) (st st' : List Card × List Card × List Card),
    dealLoop n st = some st' →
    (st'.1 : Multiset Card) + ↑st'.2.1 + ↑st'.2.2 = ↑st.1 + ↑st.2.1 + ↑st.2.2
  | 0, st, st', h => by
    rw [dealLoop] at h
    injection h with h2
    rw [← h2]
  | n + 1, (deck, ph, oh), st', h => by
    rw [dealLoop] at h
    split at h
    case h_1 => simp at h
    case h_2 d1 ph1 h1 =>
      split at h
      case h_1 => simp at h
      case h_2 d2 oh1 h2 =>
        have ih := dealLoop_total n (d2, ph1, oh1) st' h
        have t1 := dealOne_total h1
        have t2 := dealOne_total h2
        rw [ih]
        have : (d2 : Multiset Card) + ↑oh1 = ↑d1 + ↑oh := t2
        calc (d2 : Multiset Card) + ↑ph1 + ↑oh1
            = (↑d2 + ↑oh1) + ↑ph1 := by abel
          _ = (↑d1 + ↑oh) + ↑ph1 := by rw [t2]
          _ = (↑d1 + ↑ph1) + ↑oh := by abel
          _ = (↑deck + ↑ph) + ↑oh := by rw [t1]
          _ = ↑deck + ↑ph + ↑oh := by abel

lemma init_cardsOf {deck0 : List Card} {s : GameState}
    (h : GameState.init deck0 = some s) : cardsOf s = (deck0 : Multiset Card) := by
  unfold GameState.init at h
  rcases hdl : dealLoop 7 (deck0, [], []) with _ | t
  · rw [hdl] at h
    simp at h
  · rw [hdl] at h
    simp only [Option.map_some', Option.some.injEq] at h
    have ht := dealLoop_total 7 (deck0, [], []) t hdl
    rw [← h, cardsOf]
    have hflags : ((List.replicate 9 emptyFlag).map flagCards).sum = 0 := by decide
    show (t.1 : Multiset Card) + ↑t.2.1 + ↑t.2.2 +
        ((List.replicate 9 emptyFlag).map flagCards).sum = ↑deck0
    rw [hflags, ht]
    show (deck0 : Multiset Card) + ↑([] : List Card) + ↑([] : List Card) + 0 = ↑deck0
    simp

/-- C6: in every state reachable from a fresh match dealt from a shuffled
full deck, the deck, both hands and all lane slots together hold exactly
the 30-card universe, each card exactly once. -/
theorem card_conservation (deck0 : List Card) (s : GameState)
    (hdeck : deck0.Perm allCards) (hr : Reachable deck0 s) :
    cardsOf s = (allCards : Multiset Card) ∧
    ∀ c : Card, c ∈ allCards → (cardsOf s).count c = 1 := by
  have hmain : cardsOf s = (allCards : Multiset Card) := by
    induction hr with
    | start s hs => rw [init_cardsOf hs]; exact Multiset.coe_eq_coe.mpr hdeck
    | step s p ci fi b s' hr hpm ih => rw [play_move_cardsOf hpm]; exact ih
  refine ⟨hmain, fun c hc => ?_⟩
  rw [hmain]
  exact Multiset.count_eq_one_of_mem (Multiset.coe_nodup.mpr (by decide)) (by exact_mod_cast hc)

/-- C6 witness: the freshly dealt match on the unshuffled deck satisfies
card conservation. -/
theorem card_conservation_w :
    (GameState.init allCards).map cardsOf = some (allCards : Multiset Card) := by
  rcases hs : GameState.init allCards with _ | s
  · exact absurd hs (by decide)
  · rw [Option.map_some',
      (card_conservation allCards s (List.Perm.refl _) (Reachable.start s hs)).1]
